import Mathlib

/-!
Shallow embedding of `monitor_cpx.py` (CPX monitoring tool) and proofs about
its specification claims.

Conventions of the embedding:
* Python strings are Lean `String`s; the JSON bodies of the two HTTP endpoints
  are modelled structurally (`RawStats`, `FetchOutcome`).
* Python's `int(...)` applied to the percentage substrings is modelled by
  `pyInt?` over the string's character list (an optional sign followed by
  decimal digits); a `none` result models the `ValueError` that `int` raises.
* Python dicts keyed by strings are modelled as association lists in
  insertion order (Python dicts preserve insertion order); assignment to an
  existing key replaces the value in place, a new key is appended.
* An uncaught Python exception escaping a function is modelled by
  `Except.error ()` / `Option.none` at the point where it escapes.
-/

/-- Health verdict attached to a server record (`stats['status']`). -/
inductive Health where
  | healthy
  | unhealthy
deriving DecidableEq, Repr

/-- `monitor_cpx.py` line 206:
`stats['status'] = 'Healthy' if cpu < 90 and memory < 90 else 'Unhealthy'`. -/
def classify (cpu memory : Int) : Health :=
  if cpu < 90 ∧ memory < 90 then Health.healthy else Health.unhealthy

/-- Accumulate decimal digits; any non-digit character fails. -/
def digitsAux : List Char → Nat → Option Nat
  | [], acc => some acc
  | c :: cs, acc =>
    if c.isDigit then digitsAux cs (acc * 10 + (c.toNat - 48)) else none

/-- A non-empty all-digit character list parsed as a natural number. -/
def digitsToNat? : List Char → Option Nat
  | [] => none
  | cs => digitsAux cs 0

/-- Python's `int` on a string: an optional sign followed by a non-empty
run of decimal digits; `none` models the `ValueError` raised otherwise. -/
def pyInt? : List Char → Option Int
  | '-' :: cs => (digitsToNat? cs).map (fun n => -(n : Int))
  | '+' :: cs => (digitsToNat? cs).map (fun n => (n : Int))
  | cs => (digitsToNat? cs).map (fun n => (n : Int))

/-- `int(s[:-1])`: drop the last character, then parse as an integer
(lines 204-205, 417-418). -/
def parsePercent (s : String) : Option Int :=
  pyInt? s.data.dropLast

/-- One entry of `self.server_stats`: the JSON dict returned for one server,
with `ip` and derived `status` stamped on (lines 202-206). The raw `cpu` and
`memory` strings are kept verbatim, as in the Python dict. -/
structure ServerStats where
  ip : String
  service : String
  cpu : String
  memory : String
  status : Health
deriving DecidableEq, Repr

/-- The JSON body of a 2xx metrics response: `service` string, and the `cpu`
and `memory` fields, `none` modelling an absent key (`KeyError`). -/
structure RawStats where
  service : String
  cpu : Option String
  memory : Option String
deriving DecidableEq, Repr

/-- What the network produced for one `GET base/ip` request.
`transportError` covers every `requests.exceptions.RequestException`:
timeout, connection failure, and the `HTTPError` raised by
`raise_for_status()` on a non-2xx response (all caught at line 209). -/
inductive FetchOutcome where
  | transportError
  | ok (raw : RawStats)
deriving DecidableEq, Repr

/-- The possible results of `fetch_server_stats` (lines 196-211). -/
inductive FetchResult where
  /-- A populated stats dict was returned. -/
  | record (r : ServerStats)
  /-- The `except requests.exceptions.RequestException` branch returned
  the empty dict (line 211). -/
  | emptyDict
  /-- An uncaught `KeyError`/`ValueError` escaped from lines 204-205: the
  `except` clause at line 209 only catches `RequestException`. -/
  | raised
deriving DecidableEq, Repr

/-- `CPXMonitor.fetch_server_stats` (lines 196-211). On success the JSON dict
gains `ip` and the derived `status`; `cpu` is read and parsed (line 204)
before `memory` (line 205). -/
def fetch_server_stats (outcome : FetchOutcome) (ip : String) : FetchResult :=
  match outcome with
  | FetchOutcome.transportError => FetchResult.emptyDict
  | FetchOutcome.ok raw =>
    match raw.cpu with
    | none => FetchResult.raised
    | some cs =>
      match parsePercent cs with
      | none => FetchResult.raised
      | some c =>
        match raw.memory with
        | none => FetchResult.raised
        | some ms =>
          match parsePercent ms with
          | none => FetchResult.raised
          | some m => FetchResult.record ⟨ip, raw.service, cs, ms, classify c m⟩

/-- Python dict assignment `d[k] = v` on an insertion-ordered association
list: replace in place if the key exists, otherwise append. -/
def insertAL (m : List (String × ServerStats)) (k : String) (v : ServerStats) :
    List (String × ServerStats) :=
  if m.any (fun p => p.1 = k) then
    m.map (fun p => if p.1 = k then (k, v) else p)
  else
    m ++ [(k, v)]

/-- The loop body of `update_all_stats` (lines 217-220): for each ip, fetch;
a truthy (non-empty) dict is stored, the empty dict is skipped, and an
uncaught exception aborts the whole method (`Except.error ()`). -/
def updateLoop (responses : String → FetchOutcome) :
    List String → List (String × ServerStats) →
    Except Unit (List (String × ServerStats))
  | [], acc => Except.ok acc
  | ip :: rest, acc =>
    match fetch_server_stats (responses ip) ip with
    | FetchResult.raised => Except.error ()
    | FetchResult.emptyDict => updateLoop responses rest acc
    | FetchResult.record r => updateLoop responses rest (insertAL acc ip r)

/-- `CPXMonitor.update_all_stats` (lines 213-221): reset `server_stats` to the
empty dict (line 216), then run the fetch loop over `self.servers`. -/
def update_all_stats (responses : String → FetchOutcome) (servers : List String) :
    Except Unit (List (String × ServerStats)) :=
  updateLoop responses servers []

/-- The mutable state of a `CPXMonitor` relevant to the claims. -/
structure CPXMonitor where
  servers : List String
  server_stats : List (String × ServerStats)
deriving DecidableEq, Repr

/-- Stateful form of `update_all_stats`: the previous `server_stats` is
discarded by the reassignment at line 216. -/
def updateAllStatsM (responses : String → FetchOutcome) (m : CPXMonitor) :
    Except Unit CPXMonitor :=
  (update_all_stats responses m.servers).map
    (fun snap => { m with server_stats := snap })

/-- `CPXMonitor.fetch_servers` (lines 183-194): on success `self.servers` is
replaced by the response body and returned; on any `RequestException` the
method returns `[]` leaving `self.servers` untouched. The first component is
the return value, the second the monitor state afterwards. -/
def fetchServersM (result : Option (List String)) (m : CPXMonitor) :
    List String × CPXMonitor :=
  match result with
  | some body => (body, { m with servers := body })
  | none => ([], m)

/-- One row of the `flag_underprovisioned_services` table (lines 463-470):
`[service, ip, status, cpu, memory, reason]`. -/
structure Row where
  service : String
  ip : String
  status : Health
  cpu : String
  memory : String
  reason : String
deriving DecidableEq, Repr

/-- `healthy_counts[service] += 1` on the `defaultdict(int)` (line 454):
bump an existing key in place, or append a fresh key with value 1. -/
def bumpCount : List (String × Nat) → String → List (String × Nat)
  | [], s => [(s, 1)]
  | (k, n) :: rest, s =>
    if k = s then (k, n + 1) :: rest else (k, n) :: bumpCount rest s

/-- `service_instances[service].append(stats)` on the `defaultdict(list)`
(line 455). -/
def appendInst : List (String × List ServerStats) → String → ServerStats →
    List (String × List ServerStats)
  | [], s, r => [(s, [r])]
  | (k, rs) :: rest, s, r =>
    if k = s then (k, rs ++ [r]) :: rest else (k, rs) :: appendInst rest s r

/-- The accumulation loop of `flag_underprovisioned_services` (lines 451-455):
`healthy_counts` gains a key only when a Healthy instance is seen;
`service_instances` collects every instance. -/
def flagFold :
    List ServerStats → List (String × Nat) × List (String × List ServerStats) →
    List (String × Nat) × List (String × List ServerStats)
  | [], st => st
  | r :: rest, (hc, si) =>
    flagFold rest
      (if r.status = Health.healthy then bumpCount hc r.service else hc,
       appendInst si r.service r)

/-- `service_instances[service]` lookup (line 461); a missing key would give
the defaultdict's fresh empty list. -/
def lookupInsts (si : List (String × List ServerStats)) (s : String) :
    List ServerStats :=
  match si.find? (fun p => p.1 = s) with
  | some p => p.2
  | none => []

/-- The table-building loop of `flag_underprovisioned_services`
(lines 457-470): iterate `healthy_counts.items()` in insertion order, and
for each service whose count is below the floor emit one row per collected
instance, with reason built at line 469. The source hardcodes the floor as
the literal 2; it is kept as a parameter here (see `FLOOR`). -/
def flagRows (floor : Nat) (snap : List ServerStats) : List Row :=
  let st := flagFold snap ([], [])
  (st.1.map (fun p =>
    if p.2 < floor then
      (lookupInsts st.2 p.1).map (fun r =>
        ⟨p.1, r.ip, r.status, r.cpu, r.memory,
          if p.2 < floor then "Only " ++ toString p.2 ++ " healthy" else "OK"⟩)
    else [])).flatten

/-- The underprovisioning floor hardcoded at lines 460 and 469. -/
def FLOOR : Nat := 2

/-- One value of the dashboard's `service_data` defaultdict (lines 89-97) —
the per-service rollup: healthy count, cpu and memory totals, instance
count.  `show_service_averages` (lines 413-422) accumulates the same cpu,
memory and count fields. -/
structure AggEntry where
  healthy : Nat
  cpu : Int
  memory : Int
  total : Nat
deriving DecidableEq, Repr

/-- One record's contribution to `service_data[service]` (lines 93-97 and
420-422): add the parsed cpu and memory, bump the count, and bump the
healthy count when the record is Healthy. -/
def bumpAgg : List (String × AggEntry) → String → Int → Int → Bool →
    List (String × AggEntry)
  | [], s, c, m, h => [(s, ⟨if h then 1 else 0, c, m, 1⟩)]
  | (k, a) :: rest, s, c, m, h =>
    if k = s then
      (k, ⟨a.healthy + (if h then 1 else 0), a.cpu + c, a.memory + m,
           a.total + 1⟩) :: rest
    else (k, a) :: bumpAgg rest s c m h

/-- The aggregation loop over `server_stats.values()` (lines 91-97, 415-422):
each record's cpu and memory strings are re-parsed with `int(s[:-1])`; a
parse failure is the uncaught `ValueError` aborting the method (`none`). -/
def aggFold : List ServerStats → List (String × AggEntry) →
    Option (List (String × AggEntry))
  | [], acc => some acc
  | r :: rest, acc =>
    match parsePercent r.cpu, parsePercent r.memory with
    | some c, some m =>
      aggFold rest (bumpAgg acc r.service c m (r.status = Health.healthy))
    | _, _ => none

/-- Per-service aggregation of a snapshot's values, as built by
`show_service_averages` / the dashboard stats table. -/
def aggregate (snap : List ServerStats) : Option (List (String × AggEntry)) :=
  aggFold snap []

/-- `s.rstrip('%')` (lines 318-319): drop every trailing `'%'` character. -/
def rstripPct (l : List Char) : List Char :=
  (l.reverse.dropWhile (fun c => c = '%')).reverse

/-- `int(service[3].rstrip('%'))` in `auto_remediate_services`
(lines 318-319). -/
def parseScale (s : String) : Option Int :=
  pyInt? (rstripPct s.data)

/-- Whether a table row triggers the scaling condition `cpu > 80 or
memory > 80` (line 322); `false` when a field fails to parse (the loop
would have raised before evaluating the condition). -/
def trig (row : Row) : Bool :=
  match parseScale row.cpu, parseScale row.memory with
  | some c, some m => decide (80 < c ∨ 80 < m)
  | _, _ => false

/-- The `services_to_scale` loop of `auto_remediate_services`
(lines 314-323): a Python `set` accumulates `service_name`s of rows whose
cpu or memory exceeds 80; an unparsable field raises `ValueError` out of
the method (`none`). -/
def autoRemediateFold : List Row → Finset String → Option (Finset String)
  | [], acc => some acc
  | row :: rest, acc =>
    match parseScale row.cpu, parseScale row.memory with
    | some c, some m =>
      autoRemediateFold rest
        (if 80 < c ∨ 80 < m then insert row.service acc else acc)
    | _, _ => none

/-- The set of service names `auto_remediate_services` marks for scaling. -/
def services_to_scale (rows : List Row) : Option (Finset String) :=
  autoRemediateFold rows ∅

/-- How one run of `track_service`'s loop ends. -/
inductive StopReason where
  /-- The `break` at line 508: the cycle found no matching instances; the
  method then returns normally after logging the error. -/
  | noInstances
  /-- SIGINT: the handler installed at line 498 calls `sys.exit(0)`, or the
  `except KeyboardInterrupt` branch at line 528 runs — a path distinct
  from the `break`. -/
  | interrupted
deriving DecidableEq, Repr

/-- The list comprehension at lines 503-504: the snapshot values whose
`service` equals the tracked name. -/
def matchingInstances (name : String) (snap : List (String × ServerStats)) :
    List ServerStats :=
  (snap.map Prod.snd).filter (fun r => r.service = name)

/-- The `while True` loop of `track_service` (lines 501-527), modelled over a
finite schedule of cycles.  Each cycle supplies the snapshot produced by
`update_all_stats` for that iteration and whether an interrupt arrives
during the `time.sleep(5)` that follows it.  The result is the stop reason
together with the number of completed sleeps; `none` means the schedule ran
out with the loop still running. -/
def trackRun (name : String) :
    List (List (String × ServerStats) × Bool) → Option (StopReason × Nat)
  | [] => none
  | (snap, intr) :: rest =>
    if (matchingInstances name snap).isEmpty then
      some (StopReason.noInstances, 0)
    else if intr then
      some (StopReason.interrupted, 0)
    else
      (trackRun name rest).map (fun p => (p.1, p.2 + 1))

/-- The instances of one service in a snapshot (specification-side view of
`service_instances[s]` / the per-service grouping). -/
def instancesOf (snap : List ServerStats) (s : String) : List ServerStats :=
  snap.filter (fun r => r.service = s)

/-- The parsed cpu value of a record (defaulting, used only where parsing is
known to succeed). -/
def cpuValD (r : ServerStats) : Int := (parsePercent r.cpu).getD 0

/-- The parsed memory value of a record (defaulting, used only where parsing
is known to succeed). -/
def memValD (r : ServerStats) : Int := (parsePercent r.memory).getD 0

/-- The all-zero aggregation entry (`defaultdict` initial value,
lines 89 and 413). -/
def zeroAgg : AggEntry := ⟨0, 0, 0, 0⟩

/-- The rollup of a list of instances: healthy count, cpu and memory sums,
instance count. -/
def contribOf (insts : List ServerStats) : AggEntry :=
  ⟨(insts.filter (fun r => r.status = Health.healthy)).length,
   (insts.map cpuValD).sum,
   (insts.map memValD).sum,
   insts.length⟩

/-- One record's rollup. -/
def unitOf (r : ServerStats) : AggEntry :=
  ⟨if r.status = Health.healthy then 1 else 0, cpuValD r, memValD r, 1⟩

/-- Fieldwise sum of two aggregation entries. -/
def addAgg (a b : AggEntry) : AggEntry :=
  ⟨a.healthy + b.healthy, a.cpu + b.cpu, a.memory + b.memory, a.total + b.total⟩

/-- Association-list lookup on the aggregation dict. -/
def lookupAgg (acc : List (String × AggEntry)) (s : String) : Option AggEntry :=
  (acc.find? (fun p => p.1 = s)).map Prod.snd

/-- The key list of the aggregation dict. -/
def keysOf (acc : List (String × AggEntry)) : List String := acc.map Prod.fst

/-- Extending an optional dict entry by a batch of instances: an absent key
stays absent when the batch is empty, otherwise starts from `zeroAgg`. -/
def extendAgg (start : Option AggEntry) (insts : List ServerStats) :
    Option AggEntry :=
  match start, insts with
  | some a, _ => some (addAgg a (contribOf insts))
  | none, [] => none
  | none, _ => some (addAgg zeroAgg (contribOf insts))

/-- A metrics response whose record classifies as Unhealthy
(cpu 95, memory 85). -/
def respUnhealthy : String → FetchOutcome :=
  fun _ => FetchOutcome.ok ⟨"S", some "95%", some "85%"⟩

/-- The stored record produced by `respUnhealthy` for ip `"ip1"`. -/
def urec : ServerStats := ⟨"ip1", "S", "95%", "85%", Health.unhealthy⟩

/-- A metrics response whose `cpu` field is present but unparsable. -/
def respBadCpu : String → FetchOutcome :=
  fun _ => FetchOutcome.ok ⟨"S", some "abc%", some "50%"⟩

/-- A metrics response whose `cpu` field is missing. -/
def respNoCpu : String → FetchOutcome :=
  fun _ => FetchOutcome.ok ⟨"S", none, some "50%"⟩

/-- Responses for the two-server scenario where exactly `"a"` fails at the
transport level. -/
def respOneBad : String → FetchOutcome :=
  fun ip =>
    if ip = "a" then FetchOutcome.transportError
    else FetchOutcome.ok ⟨"S", some "50%", some "40%"⟩

/-- A response that always succeeds with a healthy record. -/
def respGood : String → FetchOutcome :=
  fun _ => FetchOutcome.ok ⟨"S", some "50%", some "40%"⟩

/-- The snapshot of the spec's aggregation example: two instances of service
`S` at (70%, 50%) and (50%, 30%). -/
def exampleSnap : List ServerStats :=
  [⟨"ip1", "S", "70%", "50%", Health.healthy⟩,
   ⟨"ip2", "S", "50%", "30%", Health.healthy⟩]

/-- The snapshot entry contributed by one fetch result: a record is stored
under its ip, anything else contributes nothing. -/
def recOf (ip : String) (fr : FetchResult) : Option (String × ServerStats) :=
  match fr with
  | FetchResult.record r => some (ip, r)
  | _ => none

/-- Claim C1 (code bug evaluation): a service all of whose instances are
unhealthy has `healthy_instances = 0 < 2`, yet `flag_underprovisioned_services`
emits no entry at all for it, because `healthy_counts` (a `defaultdict(int)`
bumped only at line 454, under the Healthy test of line 453) never acquires a
key for a service with zero healthy instances, and the emission loop at
line 459 iterates `healthy_counts.items()` only.  This contradicts the
claim (and the function's own docstring, "fewer than 2 healthy instances"):
the claimed behaviour would emit exactly one entry for the single instance,
with reason "Only 0 healthy". -/
theorem claim1_zero_healthy_service_not_flagged :
    update_all_stats respUnhealthy ["ip1"] = Except.ok [("ip1", urec)] ∧
    ([urec].filter (fun r => r.service = "S" ∧ r.status = Health.healthy)).length = 0 ∧
    0 < FLOOR ∧
    ([urec].filter (fun r => r.service = "S")).length = 1 ∧
    flagRows FLOOR [urec] = [] := by
  refine ⟨by rfl, by decide, by decide, by decide, by decide⟩

/-- Claim C2 (code bug evaluation): on a snapshot holding a single unhealthy
instance of service `S`, the aggregation reports `S` with
`healthy_instances = 0`, below the floor of 2, but the set of services
appearing in the detector's output is empty — the round trip loses every
service whose healthy count is zero. -/
theorem claim2_detect_misses_zero_healthy_service :
    (aggregate [urec]).map
        (fun l => (l.filter (fun p => p.2.healthy < FLOOR)).map Prod.fst) =
      some ["S"] ∧
    (flagRows FLOOR [urec]).map (fun row => row.service) = [] := by
  refine ⟨by decide, by decide⟩

/-- Claim C3 (code bug evaluation): a metrics response with an unparsable or
missing `cpu` field makes `fetch_server_stats` raise an uncaught
`ValueError`/`KeyError` (the `except` clause at line 209 only catches
`requests.exceptions.RequestException`), and the exception propagates out of
`update_all_stats`, aborting the whole refresh cycle — rather than the
claimed behaviour of failing with a `MetricFetchError`-style failure and
merely omitting the identifier. -/
theorem claim3_unparsable_field_aborts_refresh :
    fetch_server_stats (respBadCpu "ip1") "ip1" = FetchResult.raised ∧
    update_all_stats respBadCpu ["ip1", "ip2"] = Except.error () ∧
    fetch_server_stats (respNoCpu "ip1") "ip1" = FetchResult.raised ∧
    update_all_stats respNoCpu ["ip1", "ip2"] = Except.error () := by
  refine ⟨by rfl, by rfl, by rfl, by rfl⟩

/-- Claim C10: when the inventory listing fails, `fetch_servers` returns the
empty list and leaves `self.servers` unchanged; in particular a failure
following an earlier successful listing keeps the earlier inventory. -/
theorem claim10_listing_failure_keeps_inventory :
    ∀ (m : CPXMonitor) (body : List String),
      fetchServersM none m = ([], m) ∧
      fetchServersM none (fetchServersM (some body) m).2 =
        ([], { m with servers := body }) := by
  intro m body
  exact ⟨rfl, rfl⟩

/-- Claim C9: whenever a tracking cycle finds zero instances of the tracked
service — the very first cycle included — and no earlier cycle was
interrupted, the loop stops right after that cycle with reason
`noInstances` and exactly one sleep per *earlier* cycle (so no sleep follows
the terminal cycle), and that reason is distinct from the interrupt-driven
stop. -/
theorem claim9_track_stops_on_empty_cycle :
    ∀ (name : String) (cycles : List (List (String × ServerStats) × Bool))
      (k : Nat) (hk : k < cycles.length),
      (∀ j (hj : j < k),
        (matchingInstances name (cycles.get ⟨j, Nat.lt_trans hj hk⟩).1).isEmpty = false ∧
        (cycles.get ⟨j, Nat.lt_trans hj hk⟩).2 = false) →
      (matchingInstances name (cycles.get ⟨k, hk⟩).1).isEmpty = true →
      trackRun name cycles = some (StopReason.noInstances, k) ∧
      StopReason.noInstances ≠ StopReason.interrupted := by
  intro name cycles
  induction cycles with
  | nil => intro k hk; exact absurd hk (Nat.not_lt_zero k)
  | cons c rest ih =>
    intro k hk hpre hempty
    refine ⟨?_, by decide⟩
    cases k with
    | zero =>
      simp only [List.get] at hempty
      simp [trackRun, hempty]
    | succ k' =>
      have h0 := hpre 0 (Nat.succ_pos k')
      simp only [List.get] at h0
      have hk' : k' < rest.length := Nat.lt_of_succ_lt_succ hk
      have hpre' : ∀ j (hj : j < k'),
          (matchingInstances name (rest.get ⟨j, Nat.lt_trans hj hk'⟩).1).isEmpty = false ∧
          (rest.get ⟨j, Nat.lt_trans hj hk'⟩).2 = false := by
        intro j hj
        have := hpre (j + 1) (Nat.succ_lt_succ hj)
        simpa only [List.get] using this
      have hempty' :
          (matchingInstances name (rest.get ⟨k', hk'⟩).1).isEmpty = true := by
        simpa only [List.get] using hempty
      have := (ih k' hk' hpre' hempty').1
      simp [trackRun, h0.1, h0.2, this]

/-- Claim C9 witness: a one-cycle schedule in which the tracked service `S`
is absent from the very first snapshot (the only instance belongs to
service `T`). -/
theorem claim9_witness :
    trackRun "S"
        [([("ip1", ⟨"ip1", "T", "50%", "50%", Health.healthy⟩)], false)] =
      some (StopReason.noInstances, 0) ∧
    StopReason.noInstances ≠ StopReason.interrupted :=
  claim9_track_stops_on_empty_cycle "S"
    [([("ip1", ⟨"ip1", "T", "50%", "50%", Health.healthy⟩)], false)]
    0 (by decide) (fun j hj => absurd hj (Nat.not_lt_zero j)) (by decide)

/-- When every row's percentage fields parse, the `services_to_scale` loop
completes and computes the union of the accumulator with the set of service
names of the triggering rows. -/
theorem autoRemediateFold_ok :
    ∀ (rows : List Row) (acc : Finset String),
      (∀ row ∈ rows,
        (parseScale row.cpu).isSome ∧ (parseScale row.memory).isSome) →
      autoRemediateFold rows acc =
        some (acc ∪ ((rows.filter trig).map (fun row => row.service)).toFinset) := by
  intro rows
  induction rows with
  | nil => intro acc _; simp [autoRemediateFold]
  | cons row rest ih =>
    intro acc h
    obtain ⟨c, hc⟩ := Option.isSome_iff_exists.mp (h row (by simp)).1
    obtain ⟨m, hm⟩ := Option.isSome_iff_exists.mp (h row (by simp)).2
    have hrest : ∀ r ∈ rest,
        (parseScale r.cpu).isSome ∧ (parseScale r.memory).isSome :=
      fun r hr => h r (by simp [hr])
    simp only [autoRemediateFold, hc, hm]
    rw [ih _ hrest]
    by_cases htrig : 80 < c ∨ 80 < m
    · have ht : trig row = true := by simp [trig, hc, hm, htrig]
      rw [if_pos htrig]
      simp [List.filter_cons, ht, Finset.insert_union, Finset.union_insert]
    · have ht : trig row = false := by
        simp only [trig, hc, hm]
        simpa using htrig
      rw [if_neg htrig]
      simp [List.filter_cons, ht]

/-- Claim C8: for any list of entries whose percentage fields parse, the set
of services marked for remediation is exactly the distinct set of
`service_name`s of entries with `cpu > 80 or memory > 80`; appending further
entries whose (triggering) services are already in the set leaves it
unchanged, and an entry at exactly 80 on both fields changes nothing. -/
theorem claim8_remediation_set_semantics :
    ∀ (rows : List Row),
      (∀ row ∈ rows,
        (parseScale row.cpu).isSome ∧ (parseScale row.memory).isSome) →
      services_to_scale rows =
        some ((rows.filter trig).map (fun row => row.service)).toFinset ∧
      (∀ extra : List Row,
        (∀ row ∈ extra, trig row = true ∧
          row.service ∈ ((rows.filter trig).map (fun row => row.service)).toFinset) →
        services_to_scale (rows ++ extra) = services_to_scale rows) ∧
      (∀ row : Row, row.cpu = "80%" → row.memory = "80%" →
        services_to_scale (rows ++ [row]) = services_to_scale rows) := by
  intro rows h
  have base := autoRemediateFold_ok rows ∅ h
  refine ⟨by simpa [services_to_scale] using base, ?_, ?_⟩
  · intro extra hextra
    have hparse : ∀ row ∈ rows ++ extra,
        (parseScale row.cpu).isSome ∧ (parseScale row.memory).isSome := by
      intro row hrow
      rcases List.mem_append.mp hrow with hrow | hrow
      · exact h row hrow
      · have ht := (hextra row hrow).1
        simp only [trig] at ht
        cases hcpu : parseScale row.cpu with
        | none => rw [hcpu] at ht; cases ht
        | some c =>
          cases hmem : parseScale row.memory with
          | none => rw [hcpu, hmem] at ht; cases ht
          | some m => simp [hcpu, hmem]
    have hall := autoRemediateFold_ok (rows ++ extra) ∅ hparse
    have hsub :
        (((rows ++ extra).filter trig).map (fun row => row.service)).toFinset =
          ((rows.filter trig).map (fun row => row.service)).toFinset := by
      rw [List.filter_append, List.map_append, List.toFinset_append]
      refine Finset.union_eq_left.mpr ?_
      intro s hs
      rw [List.mem_toFinset] at hs
      obtain ⟨row, hrow, rfl⟩ := List.mem_map.mp hs
      have hrow' := List.mem_filter.mp hrow
      simpa using (hextra row hrow'.1).2
    simp only [services_to_scale] at base hall ⊢
    rw [hall, hsub, base]
  · intro row hcpu hmem
    have hp : parseScale row.cpu = some 80 := by rw [hcpu]; decide
    have hq : parseScale row.memory = some 80 := by rw [hmem]; decide
    have hparse : ∀ r ∈ rows ++ [row],
        (parseScale r.cpu).isSome ∧ (parseScale r.memory).isSome := by
      intro r hr
      rcases List.mem_append.mp hr with hr | hr
      · exact h r hr
      · rcases List.mem_singleton.mp hr with rfl
        simp [hp, hq]
    have hall := autoRemediateFold_ok (rows ++ [row]) ∅ hparse
    have ht : trig row = false := by simp [trig, hp, hq]
    simp only [services_to_scale] at base hall ⊢
    rw [hall, base]
    congr 2
    rw [List.filter_append]
    simp [List.filter_cons, ht]

/-- Claim C8 witness: a single triggering row (cpu 85%) for service `S`. -/
theorem claim8_witness :
    services_to_scale [⟨"S", "ip1", Health.healthy, "85%", "50%", "r"⟩] =
      some (([(⟨"S", "ip1", Health.healthy, "85%", "50%", "r"⟩ : Row)].filter
        trig).map (fun row => row.service)).toFinset :=
  (claim8_remediation_set_semantics
    [⟨"S", "ip1", Health.healthy, "85%", "50%", "r"⟩] (by decide)).1

/-- `classify` returns Healthy exactly when both utilizations are below the
threshold 90 (no range restriction needed). -/
theorem classify_eq_healthy_iff (c m : Int) :
    classify c m = Health.healthy ↔ c < 90 ∧ m < 90 := by
  unfold classify
  by_cases h : c < 90 ∧ m < 90
  · simp [h]
  · simp only [if_neg h]
    constructor
    · intro hcl; cases hcl
    · intro hcm; exact absurd hcm h

/-- Inversion for a successful fetch: the stored record's raw strings parse,
and its status is the classification of the parsed values. -/
theorem fetch_record_inv {o : FetchOutcome} {ip : String} {r : ServerStats}
    (h : fetch_server_stats o ip = FetchResult.record r) :
    ∃ c m, parsePercent r.cpu = some c ∧ parsePercent r.memory = some m ∧
      r.status = classify c m := by
  cases o with
  | transportError => cases h
  | ok raw =>
    cases hcs : raw.cpu with
    | none => simp [fetch_server_stats, hcs] at h
    | some cs =>
      cases hc : parsePercent cs with
      | none => simp [fetch_server_stats, hcs, hc] at h
      | some c =>
        cases hms : raw.memory with
        | none => simp [fetch_server_stats, hcs, hc, hms] at h
        | some ms =>
          cases hm : parsePercent ms with
          | none => simp [fetch_server_stats, hcs, hc, hms, hm] at h
          | some m =>
            simp only [fetch_server_stats, hcs, hc, hms, hm,
              FetchResult.record.injEq] at h
            subst h
            exact ⟨c, m, hc, hm, rfl⟩

/-- Any entry of a successfully completed update loop either was already in
the accumulator or was stored under its own ip from a successful fetch. -/
theorem updateLoop_ok_mem {responses : String → FetchOutcome} :
    ∀ {l : List String} {acc snap : List (String × ServerStats)},
      updateLoop responses l acc = Except.ok snap →
      ∀ p ∈ snap, p ∈ acc ∨ (p.1 ∈ l ∧
        fetch_server_stats (responses p.1) p.1 = FetchResult.record p.2) := by
  intro l
  induction l with
  | nil =>
    intro acc snap h p hp
    simp only [updateLoop, Except.ok.injEq] at h
    subst h
    exact Or.inl hp
  | cons ip rest ih =>
    intro acc snap h p hp
    simp only [updateLoop] at h
    cases hf : fetch_server_stats (responses ip) ip with
    | raised => rw [hf] at h; cases h
    | emptyDict =>
      rw [hf] at h
      rcases ih h p hp with hacc | ⟨hmem, hfetch⟩
      · exact Or.inl hacc
      · exact Or.inr ⟨by simp [hmem], hfetch⟩
    | record r =>
      rw [hf] at h
      rcases ih h p hp with hacc | ⟨hmem, hfetch⟩
      · unfold insertAL at hacc
        split at hacc
        · obtain ⟨q, hq, hqp⟩ := List.mem_map.mp hacc
          by_cases hkey : q.1 = ip
          · rw [if_pos hkey] at hqp
            subst hqp
            exact Or.inr ⟨by simp, by simpa using hf⟩
          · rw [if_neg hkey] at hqp
            subst hqp
            exact Or.inl hq
        · rcases List.mem_append.mp hacc with hq | hq
          · exact Or.inl hq
          · rcases List.mem_singleton.mp hq with rfl
            exact Or.inr ⟨by simp, by simpa using hf⟩
      · exact Or.inr ⟨by simp [hmem], hfetch⟩

/-- Claim C4: `classify` yields Healthy iff both cpu and memory are below 90
(in particular on all of [0,100)); the verdict flips between 89 and 90; and
every record that `update_all_stats` places in the snapshot satisfies the
invariant relating its status to the parsed values of its cpu and memory
fields. -/
theorem claim4_classification_and_snapshot_invariant :
    (∀ c m : Int, 0 ≤ c → c < 100 → 0 ≤ m → m < 100 →
      (classify c m = Health.healthy ↔ c < 90 ∧ m < 90)) ∧
    (classify 89 89 = Health.healthy ∧ classify 90 89 = Health.unhealthy ∧
     classify 89 90 = Health.unhealthy ∧ classify 90 90 = Health.unhealthy) ∧
    (∀ (responses : String → FetchOutcome) (servers : List String)
       (snap : List (String × ServerStats)),
      update_all_stats responses servers = Except.ok snap →
      ∀ p ∈ snap, ∃ c m, parsePercent p.2.cpu = some c ∧
        parsePercent p.2.memory = some m ∧
        (p.2.status = Health.healthy ↔ c < 90 ∧ m < 90)) := by
  refine ⟨fun c m _ _ _ _ => classify_eq_healthy_iff c m,
    ⟨by decide, by decide, by decide, by decide⟩, ?_⟩
  intro responses servers snap h p hp
  rcases updateLoop_ok_mem h p hp with hacc | ⟨_, hfetch⟩
  · cases hacc
  · obtain ⟨c, m, hc, hm, hst⟩ := fetch_record_inv hfetch
    exact ⟨c, m, hc, hm, by rw [hst]; exact classify_eq_healthy_iff c m⟩

/-- Claim C4 witness: the boundary instance 89/89, derived through the
general equivalence. -/
theorem claim4_witness : classify 89 89 = Health.healthy :=
  (claim4_classification_and_snapshot_invariant.1 89 89
    (by decide) (by decide) (by decide) (by decide)).mpr (by decide)

/-- Dict assignment with a key absent from the accumulator appends. -/
theorem insertAL_fresh {acc : List (String × ServerStats)} {k : String}
    {v : ServerStats} (h : ∀ p ∈ acc, p.1 ≠ k) :
    insertAL acc k v = acc ++ [(k, v)] := by
  have hany : acc.any (fun p => p.1 = k) = false := by
    rw [List.any_eq_false]
    intro p hp
    simpa using h p hp
  unfold insertAL
  rw [hany]
  simp

/-- When no fetch raises, the update loop completes and appends, in order,
one entry per ip whose fetch produced a record. -/
theorem updateLoop_ok_of_no_raise {responses : String → FetchOutcome} :
    ∀ (l : List String) (acc : List (String × ServerStats)),
      l.Nodup → (∀ ip ∈ l, ∀ p ∈ acc, p.1 ≠ ip) →
      (∀ ip ∈ l, fetch_server_stats (responses ip) ip ≠ FetchResult.raised) →
      updateLoop responses l acc = Except.ok
        (acc ++ l.filterMap
          (fun ip => recOf ip (fetch_server_stats (responses ip) ip))) := by
  intro l
  induction l with
  | nil => intro acc _ _ _; simp [updateLoop]
  | cons ip rest ih =>
    intro acc hnd hfresh hnr
    simp only [updateLoop]
    cases hf : fetch_server_stats (responses ip) ip with
    | raised => exact absurd hf (hnr ip (by simp))
    | emptyDict =>
      rw [ih acc (List.Nodup.of_cons hnd)
        (fun i hi p hp => hfresh i (by simp [hi]) p hp)
        (fun i hi => hnr i (by simp [hi]))]
      simp [List.filterMap_cons, hf, recOf]
    | record r =>
      show updateLoop responses rest (insertAL acc ip r) = _
      rw [insertAL_fresh (fun p hp => hfresh ip (by simp) p hp)]
      have hnotin : ip ∉ rest := (List.nodup_cons.mp hnd).1
      rw [ih (acc ++ [(ip, r)]) (List.Nodup.of_cons hnd)
        ?_ (fun i hi => hnr i (by simp [hi]))]
      · simp [List.filterMap_cons, hf, recOf]
      · intro i hi p hp
        rcases List.mem_append.mp hp with hp | hp
        · exact hfresh i (by simp [hi]) p hp
        · rcases List.mem_singleton.mp hp with rfl
          intro hcontra
          have hip : ip = i := hcontra
          subst hip
          exact hnotin hi

/-- A list whose `filterMap` drops exactly one element (present, Nodup) has
result length one less than the list. -/
theorem filterMap_length_drop_one {f : String → Option (String × ServerStats)}
    {bad : String} :
    ∀ (l : List String), l.Nodup → bad ∈ l → f bad = none →
      (∀ ip ∈ l, ip ≠ bad → (f ip).isSome) →
      (l.filterMap f).length = l.length - 1 := by
  intro l
  induction l with
  | nil => intro _ hbad; cases hbad
  | cons a rest ih =>
    intro hnd hbad hfbad hsome
    by_cases ha : a = bad
    · subst ha
      have hnotin : a ∉ rest := (List.nodup_cons.mp hnd).1
      have hallsome : ∀ ip ∈ rest, (f ip).isSome := by
        intro ip hip
        refine hsome ip (by simp [hip]) ?_
        intro hcontra
        exact hnotin (hcontra ▸ hip)
      have hlen : (rest.filterMap f).length = rest.length := by
        clear ih hsome hbad hnd hnotin
        induction rest with
        | nil => simp
        | cons b bs ihb =>
          obtain ⟨v, hv⟩ := Option.isSome_iff_exists.mp (hallsome b (by simp))
          simp [List.filterMap_cons, hv,
            ihb (fun ip hip => hallsome ip (by simp [hip]))]
      simp [List.filterMap_cons, hfbad, hlen]
    · have hbad' : bad ∈ rest := by
        rcases List.mem_cons.mp hbad with h | h
        · exact absurd h.symm ha
        · exact h
      have hrest := ih (List.Nodup.of_cons hnd) hbad' hfbad
        (fun ip hip hne => hsome ip (by simp [hip]) hne)
      obtain ⟨v, hv⟩ := Option.isSome_iff_exists.mp
        (hsome a (by simp) ha)
      have hpos : 1 ≤ rest.length := List.length_pos.mpr
        (List.ne_nil_of_mem hbad')
      simp only [List.filterMap_cons, hv, List.length_cons, hrest]
      omega

/-- Claim C6: when exactly one of N distinct listed identifiers fails at the
transport level (timeout, connection error, or non-2xx — all caught as
`RequestException`) and every other fetch yields a record, the refresh
returns normally with a snapshot of exactly the N−1 successful records: the
failed identifier is absent and every successful one is present. -/
theorem claim6_single_transport_failure_partial_snapshot :
    ∀ (responses : String → FetchOutcome) (servers : List String) (bad : String),
      servers.Nodup → bad ∈ servers →
      responses bad = FetchOutcome.transportError →
      (∀ ip ∈ servers, ip ≠ bad →
        ∃ r, fetch_server_stats (responses ip) ip = FetchResult.record r) →
      ∃ snap, update_all_stats responses servers = Except.ok snap ∧
        snap.length = servers.length - 1 ∧
        (∀ p ∈ snap, p.1 ∈ servers ∧ p.1 ≠ bad ∧
          fetch_server_stats (responses p.1) p.1 = FetchResult.record p.2) ∧
        (∀ ip ∈ servers, ip ≠ bad → ∃ r, (ip, r) ∈ snap) := by
  intro responses servers bad hnd hbad hbadresp hgood
  have hnr : ∀ ip ∈ servers,
      fetch_server_stats (responses ip) ip ≠ FetchResult.raised := by
    intro ip hip
    by_cases hne : ip = bad
    · subst hne
      rw [hbadresp]
      intro hcontra
      cases hcontra
    · obtain ⟨r, hr⟩ := hgood ip hip hne
      rw [hr]
      intro hcontra
      cases hcontra
  have hloop := @updateLoop_ok_of_no_raise responses servers []
    hnd (by intro ip _ p hp; cases hp) hnr
  refine ⟨_, hloop, ?_, ?_, ?_⟩
  · have hfbad :
        recOf bad (fetch_server_stats (responses bad) bad) = none := by
      rw [hbadresp]; rfl
    have hfsome : ∀ ip ∈ servers, ip ≠ bad →
        (recOf ip (fetch_server_stats (responses ip) ip)).isSome := by
      intro ip hip hne
      obtain ⟨r, hr⟩ := hgood ip hip hne
      rw [hr]
      rfl
    simpa using filterMap_length_drop_one servers hnd hbad hfbad hfsome
  · intro p hp
    simp only [List.nil_append] at hp
    obtain ⟨ip, hip, hrec⟩ := List.mem_filterMap.mp hp
    cases hf : fetch_server_stats (responses ip) ip with
    | record r =>
      rw [hf] at hrec
      simp only [recOf, Option.some.injEq] at hrec
      subst hrec
      have hne : ip ≠ bad := by
        intro hcontra
        subst hcontra
        rw [hbadresp] at hf
        cases hf
      exact ⟨hip, hne, hf⟩
    | emptyDict => rw [hf] at hrec; cases hrec
    | raised => rw [hf] at hrec; cases hrec
  · intro ip hip hne
    obtain ⟨r, hr⟩ := hgood ip hip hne
    refine ⟨r, ?_⟩
    simp only [List.nil_append]
    exact List.mem_filterMap.mpr ⟨ip, hip, by rw [hr]; rfl⟩

/-- Claim C6 witness: two servers `a`, `b`; `a` times out at the transport
level, `b` responds with a healthy record; the snapshot has exactly one
entry. -/
theorem claim6_witness :
    ∃ snap, update_all_stats respOneBad ["a", "b"] = Except.ok snap ∧
      snap.length = (["a", "b"] : List String).length - 1 ∧
      (∀ p ∈ snap, p.1 ∈ ["a", "b"] ∧ p.1 ≠ "a" ∧
        fetch_server_stats (respOneBad p.1) p.1 = FetchResult.record p.2) ∧
      (∀ ip ∈ ["a", "b"], ip ≠ "a" → ∃ r, (ip, r) ∈ snap) :=
  claim6_single_transport_failure_partial_snapshot respOneBad ["a", "b"] "a"
    (by decide) (by decide) (by decide)
    (by
      intro ip hip hne
      rcases List.mem_cons.mp hip with rfl | hip'
      · exact absurd rfl hne
      · rcases List.mem_cons.mp hip' with rfl | h
        · exact ⟨⟨"b", "S", "50%", "40%", Health.healthy⟩, by decide⟩
        · cases h)

/-- Claim C7: a completed refresh rebuilds the snapshot from scratch — every
stored entry comes from a successful fetch of this cycle for an identifier
in the current inventory, and the result is entirely independent of whatever
`server_stats` held before the refresh (line 216 resets the dict). -/
theorem claim7_snapshot_rebuilt_from_scratch :
    ∀ (responses : String → FetchOutcome) (m m' : CPXMonitor),
      updateAllStatsM responses m = Except.ok m' →
      (∀ p ∈ m'.server_stats, p.1 ∈ m.servers ∧
        fetch_server_stats (responses p.1) p.1 = FetchResult.record p.2) ∧
      (∀ prev : List (String × ServerStats),
        updateAllStatsM responses { m with server_stats := prev } =
          Except.ok m') := by
  intro responses m m' h
  cases hu : update_all_stats responses m.servers with
  | error e =>
    rw [updateAllStatsM, hu] at h
    cases h
  | ok snap =>
    rw [updateAllStatsM, hu] at h
    simp only [Except.map, Except.ok.injEq] at h
    subst h
    constructor
    · intro p hp
      rcases updateLoop_ok_mem hu p hp with hacc | ⟨hmem, hfetch⟩
      · cases hacc
      · exact ⟨hmem, hfetch⟩
    · intro prev
      rw [updateAllStatsM]
      have hsrv : ({ m with server_stats := prev } : CPXMonitor).servers =
          m.servers := rfl
      rw [hsrv, hu]
      rfl

/-- Claim C7 witness: a monitor whose previous snapshot held a stale entry
for identifier `old`; after the refresh over inventory `["a"]` the snapshot
holds exactly this cycle's record for `a`, and the same result is reached
from any previous snapshot. -/
theorem claim7_witness :
    (∀ p ∈ [("a", (⟨"a", "S", "50%", "40%", Health.healthy⟩ : ServerStats))],
      p.1 ∈ (["a"] : List String) ∧
      fetch_server_stats (respGood p.1) p.1 = FetchResult.record p.2) ∧
    (∀ prev : List (String × ServerStats),
      updateAllStatsM respGood ⟨["a"], prev⟩ =
        Except.ok ⟨["a"], [("a", ⟨"a", "S", "50%", "40%", Health.healthy⟩)]⟩) :=
  claim7_snapshot_rebuilt_from_scratch respGood
    ⟨["a"], [("old", ⟨"old", "T", "10%", "10%", Health.healthy⟩)]⟩
    ⟨["a"], [("a", ⟨"a", "S", "50%", "40%", Health.healthy⟩)]⟩
    (by rfl)

/-- `addAgg` is associative (fieldwise addition). -/
theorem addAgg_assoc (a b c : AggEntry) :
    addAgg (addAgg a b) c = addAgg a (addAgg b c) := by
  simp [addAgg, Nat.add_assoc, Int.add_assoc]

/-- `zeroAgg` is a left unit for `addAgg`. -/
theorem zeroAgg_addAgg (a : AggEntry) : addAgg zeroAgg a = a := by
  simp [addAgg, zeroAgg]

/-- A cons decomposition of the rollup of a list of instances. -/
theorem contribOf_cons (r : ServerStats) (insts : List ServerStats) :
    contribOf (r :: insts) = addAgg (unitOf r) (contribOf insts) := by
  by_cases h : r.status = Health.healthy <;>
    simp [contribOf, unitOf, addAgg, List.filter_cons, h, Nat.add_comm,
      Int.add_comm]

/-- Cons equation for `lookupAgg`. -/
theorem lookupAgg_cons (k0 : String) (a : AggEntry)
    (rest : List (String × AggEntry)) (k : String) :
    lookupAgg ((k0, a) :: rest) k =
      if k0 = k then some a else lookupAgg rest k := by
  by_cases h : k0 = k <;> simp [lookupAgg, List.find?_cons, h]

/-- Cons equation for `keysOf`. -/
theorem keysOf_cons (k0 : String) (a : AggEntry)
    (rest : List (String × AggEntry)) :
    keysOf ((k0, a) :: rest) = k0 :: keysOf rest := rfl

/-- Bumping the service stored at the head updates the head in place. -/
theorem bumpAgg_cons_hit (k0 : String) (a : AggEntry)
    (rest : List (String × AggEntry)) (c m : Int) (h : Bool) :
    bumpAgg ((k0, a) :: rest) k0 c m h =
      (k0, ⟨a.healthy + (if h then 1 else 0), a.cpu + c, a.memory + m,
        a.total + 1⟩) :: rest := by
  simp [bumpAgg]

/-- Bumping a service different from the head's key passes the head through. -/
theorem bumpAgg_cons_miss {k0 s : String} (hk : ¬ k0 = s) (a : AggEntry)
    (rest : List (String × AggEntry)) (c m : Int) (h : Bool) :
    bumpAgg ((k0, a) :: rest) s c m h = (k0, a) :: bumpAgg rest s c m h := by
  simp [bumpAgg, hk]

/-- The keys of the aggregation dict after one bump: unchanged when the
service is already a key, extended by the service otherwise. -/
theorem bumpAgg_keys :
    ∀ (acc : List (String × AggEntry)) (s : String) (c m : Int) (h : Bool),
      keysOf (bumpAgg acc s c m h) =
        if s ∈ keysOf acc then keysOf acc else keysOf acc ++ [s] := by
  intro acc
  induction acc with
  | nil => intro s c m h; simp [bumpAgg, keysOf]
  | cons q rest ih =>
    intro s c m h
    obtain ⟨k0, a⟩ := q
    by_cases hk0 : k0 = s
    · subst hk0
      rw [bumpAgg_cons_hit, keysOf_cons, keysOf_cons,
        if_pos (List.mem_cons_self k0 (keysOf rest))]
    · rw [bumpAgg_cons_miss hk0, keysOf_cons, keysOf_cons, ih s c m h]
      by_cases hs : s ∈ keysOf rest
      · rw [if_pos hs, if_pos (List.mem_cons.mpr (Or.inr hs))]
      · have hne : s ∉ k0 :: keysOf rest := by
          intro hcontra
          rcases List.mem_cons.mp hcontra with hh | hh
          · exact hk0 hh.symm
          · exact hs hh
        rw [if_neg hs, if_neg hne]
        rfl

/-- Lookup after one bump: the bumped service's entry gains the one-record
increment on top of its previous value (`zeroAgg` when absent); every other
key is untouched. -/
theorem bumpAgg_lookup :
    ∀ (acc : List (String × AggEntry)) (s : String) (c m : Int) (h : Bool)
      (k : String),
      lookupAgg (bumpAgg acc s c m h) k =
        if k = s then
          some (addAgg ((lookupAgg acc s).getD zeroAgg)
            ⟨if h then 1 else 0, c, m, 1⟩)
        else lookupAgg acc k := by
  intro acc
  induction acc with
  | nil =>
    intro s c m h k
    by_cases hks : k = s
    · subst hks
      rw [show bumpAgg [] k c m h = [(k, ⟨if h then 1 else 0, c, m, 1⟩)]
          from rfl,
        lookupAgg_cons, if_pos rfl, if_pos rfl]
      simp [lookupAgg, addAgg, zeroAgg]
    · rw [show bumpAgg [] s c m h = [(s, ⟨if h then 1 else 0, c, m, 1⟩)]
          from rfl,
        lookupAgg_cons, if_neg (fun hh => hks hh.symm), if_neg hks]
  | cons q rest ih =>
    intro s c m h k
    obtain ⟨k0, a⟩ := q
    by_cases hk0 : k0 = s
    · subst hk0
      rw [bumpAgg_cons_hit]
      simp only [lookupAgg_cons]
      by_cases hk : k0 = k
      · subst hk
        simp only [if_pos rfl]
        simp [addAgg]
      · have hks : ¬ k = k0 := fun hh => hk hh.symm
        simp only [if_neg hk, if_neg hks]
    · rw [bumpAgg_cons_miss hk0]
      simp only [lookupAgg_cons]
      by_cases hk : k0 = k
      · subst hk
        have hne : ¬ k0 = s := hk0
        simp only [if_pos rfl, if_neg hne]
        simp
      · simp only [if_neg hk]
        rw [ih s c m h k]
        by_cases hks : k = s
        · subst hks
          have hlk : lookupAgg ((k0, a) :: rest) k = lookupAgg rest k := by
            rw [lookupAgg_cons, if_neg hk]
          simp only [if_pos rfl, hlk]
          simp [if_neg hk]
        · simp only [if_neg hks]

/-- `zeroAgg` is a right unit for `addAgg`. -/
theorem addAgg_zeroAgg (a : AggEntry) : addAgg a zeroAgg = a := by
  simp [addAgg, zeroAgg]

/-- The rollup of the empty instance list is `zeroAgg`. -/
theorem contribOf_nil : contribOf [] = zeroAgg := by
  simp [contribOf, zeroAgg]

/-- Full characterization of the aggregation loop: it completes whenever all
records parse, each key's final entry extends its initial entry by the
contributions of that service's instances, key-Nodup is preserved, and the
final keys are the initial keys together with the services seen. -/
theorem aggFold_spec :
    ∀ (snap : List ServerStats) (acc : List (String × AggEntry)),
      (∀ r ∈ snap,
        (parsePercent r.cpu).isSome ∧ (parsePercent r.memory).isSome) →
      ∃ final, aggFold snap acc = some final ∧
        (∀ k, lookupAgg final k =
          extendAgg (lookupAgg acc k) (instancesOf snap k)) ∧
        ((keysOf acc).Nodup → (keysOf final).Nodup) ∧
        (∀ t, t ∈ keysOf final ↔ t ∈ keysOf acc ∨
          t ∈ snap.map (fun r => r.service)) := by
  intro snap
  induction snap with
  | nil =>
    intro acc _
    refine ⟨acc, by simp [aggFold], ?_, fun hnd => hnd, by simp⟩
    intro k
    cases hstart : lookupAgg acc k with
    | none => simp [extendAgg, instancesOf]
    | some a => simp [extendAgg, instancesOf, contribOf_nil, addAgg_zeroAgg]
  | cons r rest ih =>
    intro acc hwf
    obtain ⟨c, hc⟩ := Option.isSome_iff_exists.mp (hwf r (by simp)).1
    obtain ⟨m, hm⟩ := Option.isSome_iff_exists.mp (hwf r (by simp)).2
    have hwf' : ∀ x ∈ rest,
        (parsePercent x.cpu).isSome ∧ (parsePercent x.memory).isSome :=
      fun x hx => hwf x (by simp [hx])
    obtain ⟨final, hfold, hlook, hnd, hmem⟩ :=
      ih (bumpAgg acc r.service c m (r.status = Health.healthy)) hwf'
    refine ⟨final, by simp only [aggFold, hc, hm]; exact hfold, ?_, ?_, ?_⟩
    · intro k
      rw [hlook k, bumpAgg_lookup]
      by_cases hks : k = r.service
      · rw [if_pos hks, hks]
        have hinst : instancesOf (r :: rest) r.service =
            r :: instancesOf rest r.service := by
          simp [instancesOf, List.filter_cons]
        rw [hinst]
        have hone :
            (⟨if (decide (r.status = Health.healthy)) = true then 1 else 0,
              c, m, 1⟩ : AggEntry) = unitOf r := by
          by_cases hst : r.status = Health.healthy <;>
            simp [unitOf, hst, cpuValD, memValD, hc, hm]
        cases hstart : lookupAgg acc r.service with
        | some a =>
          simp only [extendAgg, Option.getD_some, contribOf_cons, hone,
            addAgg_assoc]
        | none =>
          simp only [extendAgg, Option.getD_none, contribOf_cons, hone,
            addAgg_assoc]
      · rw [if_neg hks]
        have hinst : instancesOf (r :: rest) k = instancesOf rest k := by
          have : ¬ r.service = k := fun hh => hks hh.symm
          simp [instancesOf, List.filter_cons, this]
        rw [hinst]
    · intro hndacc
      refine hnd ?_
      rw [bumpAgg_keys]
      by_cases hs : r.service ∈ keysOf acc
      · simpa [hs] using hndacc
      · simp [List.nodup_append, hndacc, hs]
    · intro t
      rw [hmem t, bumpAgg_keys]
      by_cases hs : r.service ∈ keysOf acc
      · rw [if_pos hs]
        simp only [List.map_cons, List.mem_cons]
        constructor
        · intro hcase
          rcases hcase with hcase | hcase
          · exact Or.inl hcase
          · exact Or.inr (Or.inr hcase)
        · intro hcase
          rcases hcase with hcase | hcase | hcase
          · exact Or.inl hcase
          · exact Or.inl (hcase ▸ hs)
          · exact Or.inr hcase
      · rw [if_neg hs]
        simp only [List.map_cons, List.mem_cons, List.mem_append,
          List.mem_singleton, List.not_mem_nil, or_false]
        tauto

/-- In an association list with Nodup keys, every member is found by lookup
of its own key. -/
theorem lookupAgg_of_mem :
    ∀ {l : List (String × AggEntry)} {p : String × AggEntry},
      (keysOf l).Nodup → p ∈ l → lookupAgg l p.1 = some p.2 := by
  intro l
  induction l with
  | nil => intro p _ hp; cases hp
  | cons q rest ih =>
    intro p hnd hp
    obtain ⟨k0, a⟩ := q
    have hnd' := List.nodup_cons.mp
      (show (k0 :: keysOf rest).Nodup from hnd)
    rcases List.mem_cons.mp hp with rfl | hp'
    · rw [lookupAgg_cons, if_pos rfl]
    · have hq : ¬ k0 = p.1 := by
        intro hcontra
        have hpk : p.1 ∈ keysOf rest := List.mem_map.mpr ⟨p, hp', rfl⟩
        exact hnd'.1 (hcontra ▸ hpk)
      rw [lookupAgg_cons, if_neg hq]
      exact ih hnd'.2 hp'

/-- Claim C5: on any snapshot whose records parse, aggregation yields one
rollup per distinct service; each `(service, entry)` rollup has `total` the
number of that service's instances, `healthy` the count of its Healthy
records, and cpu/memory totals whose quotients by the count are exactly
`sum/n`; the spec's concrete example — two instances of `S` at (70%, 50%)
and (50%, 30%) — yields totals 120/80 over 2 instances, i.e. averages 60.0
and 40.0. -/
theorem claim5_aggregate_rollups :
    (∀ (snap : List ServerStats),
      (∀ r ∈ snap,
        (parsePercent r.cpu).isSome ∧ (parsePercent r.memory).isSome) →
      ∃ agg, aggregate snap = some agg ∧
        (agg.map Prod.fst).Nodup ∧
        (∀ s, s ∈ agg.map Prod.fst ↔ s ∈ snap.map (fun r => r.service)) ∧
        (∀ p ∈ agg,
          p.2.total = (instancesOf snap p.1).length ∧
          p.2.healthy = ((instancesOf snap p.1).filter
            (fun r => r.status = Health.healthy)).length ∧
          p.2.cpu = ((instancesOf snap p.1).map cpuValD).sum ∧
          p.2.memory = ((instancesOf snap p.1).map memValD).sum ∧
          (p.2.cpu : ℚ) / (p.2.total : ℚ) =
            (((instancesOf snap p.1).map cpuValD).sum : ℚ) /
              ((instancesOf snap p.1).length : ℚ) ∧
          (p.2.memory : ℚ) / (p.2.total : ℚ) =
            (((instancesOf snap p.1).map memValD).sum : ℚ) /
              ((instancesOf snap p.1).length : ℚ))) ∧
    aggregate exampleSnap = some [("S", ⟨2, 120, 80, 2⟩)] ∧
    (120 : ℚ) / 2 = 60 ∧ (80 : ℚ) / 2 = 40 := by
  refine ⟨?_, by decide, by norm_num, by norm_num⟩
  intro snap hwf
  obtain ⟨agg, hfold, hlook, hnd, hmem⟩ := aggFold_spec snap [] hwf
  have hndkeys : (keysOf agg).Nodup := hnd (by simp [keysOf])
  refine ⟨agg, hfold, hndkeys, ?_, ?_⟩
  · intro s
    simpa [keysOf] using hmem s
  · intro p hp
    have hlk : lookupAgg agg p.1 = some p.2 := lookupAgg_of_mem hndkeys hp
    have hchar := hlook p.1
    rw [hlk] at hchar
    rw [show lookupAgg ([] : List (String × AggEntry)) p.1 = none from rfl]
      at hchar
    cases hinsts : instancesOf snap p.1 with
    | nil =>
      rw [hinsts] at hchar
      simp [extendAgg] at hchar
    | cons x xs =>
      rw [hinsts] at hchar
      simp only [extendAgg, Option.some.injEq] at hchar
      rw [hchar, zeroAgg_addAgg]
      simp [contribOf]

/-- Claim C5 witness: the aggregation conclusion instantiated at the spec's
example snapshot. -/
theorem claim5_witness :
    ∃ agg, aggregate exampleSnap = some agg ∧
      (agg.map Prod.fst).Nodup ∧
      (∀ s, s ∈ agg.map Prod.fst ↔
        s ∈ exampleSnap.map (fun r => r.service)) ∧
      (∀ p ∈ agg,
        p.2.total = (instancesOf exampleSnap p.1).length ∧
        p.2.healthy = ((instancesOf exampleSnap p.1).filter
          (fun r => r.status = Health.healthy)).length ∧
        p.2.cpu = ((instancesOf exampleSnap p.1).map cpuValD).sum ∧
        p.2.memory = ((instancesOf exampleSnap p.1).map memValD).sum ∧
        (p.2.cpu : ℚ) / (p.2.total : ℚ) =
          (((instancesOf exampleSnap p.1).map cpuValD).sum : ℚ) /
            ((instancesOf exampleSnap p.1).length : ℚ) ∧
        (p.2.memory : ℚ) / (p.2.total : ℚ) =
          (((instancesOf exampleSnap p.1).map memValD).sum : ℚ) /
            ((instancesOf exampleSnap p.1).length : ℚ)) :=
  claim5_aggregate_rollups.1 exampleSnap (by decide)
